import Mathlib

/-!
Shallow embedding of the snarkOS block/transaction relay engine
(`network/src/blocks/blocks.rs`), together with theorems checking the
natural-language specification against it.

External collaborators (consensus engine, storage, pending-transaction
pool, outbound transport) are modelled as function parameters or
explicit state.  Outbound sends are modelled as the list of `Request`
values the handler would broadcast, in issue order; shared mutable
state (storage, pool) is modelled by explicit state passing.
-/

set_option autoImplicit false

namespace SnarkOS

/-- Network address of a peer (`SocketAddr`). -/
abbrev Addr := Nat

/-- A block header hash (`BlockHeaderHash`). -/
abbrev Hash := Nat

/-- An opaque serialized payload (`Vec<u8>`). -/
abbrev Bytes := List Nat

/-- A parsed transaction (`Tx`): only the fields this core inspects are kept,
namely the value balance (an `i64` in the source, checked with `is_negative`)
and an abstract identity used for pool de-duplication. -/
structure Tx where
  txid : Nat
  value_balance : Int
  deriving DecidableEq, Repr

/-- A memory-pool entry (`Entry<Tx>`): the parsed transaction plus its
serialized size. -/
structure Entry where
  size_in_bytes : Nat
  transaction : Tx
  deriving DecidableEq, Repr

/-- The outbound request vocabulary used by this component (`Request`
variants actually emitted by `blocks.rs`), each addressed to one peer. -/
inductive Request where
  | block (remote : Addr) (data : Bytes)
  | transaction (remote : Addr) (data : Bytes)
  | sync (remote : Addr) (hashes : List Hash)
  | syncBlock (remote : Addr) (data : Bytes)
  | getBlock (remote : Addr) (hash : Hash)
  | memoryPool (remote : Addr) (txs : List Bytes)
  deriving DecidableEq, Repr

/-- The error type surfaced by the handlers (`NetworkError`).  Only the
shapes reachable from `blocks.rs` are modelled: block/transaction
deserialization failures and propagated collaborator errors. -/
inductive NetworkError where
  | blockParse
  | txParse
  | consensus (e : Nat)
  | storage (e : Nat)
  deriving DecidableEq, Repr

/-- `propagate_block`: sends a `Block` message carrying `block_bytes` to every
address in `connected_peers` other than `block_miner` and the local address.
The returned list is the sequence of broadcasts issued; the Rust function
always returns `Ok(())`. -/
def propagate_block (localAddress : Addr) (block_bytes : Bytes)
    (block_miner : Addr) (connected_peers : List Addr) : List Request :=
  (connected_peers.filter
    (fun remote => remote != block_miner && remote != localAddress)).map
    (fun remote => Request.block remote block_bytes)

/-- `propagate_transaction`: sends a `Transaction` message carrying
`transaction_bytes` to every address in `connected_peers` other than
`transaction_sender` and the local address. -/
def propagate_transaction (localAddress : Addr) (transaction_bytes : Bytes)
    (transaction_sender : Addr) (connected_peers : List Addr) : List Request :=
  (connected_peers.filter
    (fun remote => remote != transaction_sender && remote != localAddress)).map
    (fun remote => Request.transaction remote transaction_bytes)

theorem count_filter_map_request {g : Addr → Request}
    (hg : ∀ x y, g x = g y → x = y) (p : Addr → Bool) (a : Addr)
    (l : List Addr) (hnd : l.Nodup) :
    ((l.filter p).map g).count (g a) = if a ∈ l ∧ p a = true then 1 else 0 := by
  induction l with
  | nil => simp
  | cons b t ih =>
    have hnd' : t.Nodup := hnd.of_cons
    by_cases hpb : p b = true
    · rw [List.filter_cons_of_pos hpb, List.map_cons]
      by_cases hab : a = b
      · subst hab
        have hna : a ∉ t := (List.nodup_cons.mp hnd).1
        rw [List.count_cons_self, ih hnd']
        simp [hpb, hna]
      · rw [List.count_cons_of_ne, ih hnd']
        · simp [List.mem_cons, hab]
        · intro h
          exact hab (hg a b h)
    · rw [List.filter_cons_of_neg hpb, ih hnd']
      by_cases hab : a = b
      · subst hab
        simp [hpb]
      · simp [List.mem_cons, hab]

theorem propagate_block_mem {localAddress : Addr} {bytes : Bytes}
    {miner : Addr} {peers : List Addr} {a : Addr} {b : Bytes}
    (h : Request.block a b ∈ propagate_block localAddress bytes miner peers) :
    a ≠ miner ∧ a ≠ localAddress ∧ a ∈ peers ∧ b = bytes := by
  simp only [propagate_block, List.mem_map, List.mem_filter] at h
  obtain ⟨x, ⟨hxmem, hxcond⟩, hxeq⟩ := h
  cases hxeq
  simp only [Bool.and_eq_true, bne_iff_ne, ne_eq] at hxcond
  exact ⟨hxcond.1, hxcond.2, hxmem, rfl⟩

theorem propagate_transaction_mem {localAddress : Addr} {bytes : Bytes}
    {sender : Addr} {peers : List Addr} {a : Addr} {b : Bytes}
    (h : Request.transaction a b ∈
      propagate_transaction localAddress bytes sender peers) :
    a ≠ sender ∧ a ≠ localAddress ∧ a ∈ peers ∧ b = bytes := by
  simp only [propagate_transaction, List.mem_map, List.mem_filter] at h
  obtain ⟨x, ⟨hxmem, hxcond⟩, hxeq⟩ := h
  cases hxeq
  simp only [Bool.and_eq_true, bne_iff_ne, ne_eq] at hxcond
  exact ⟨hxcond.1, hxcond.2, hxmem, rfl⟩

/-- The collaborators consulted by the transaction-ingestion handlers, over an
abstract pool state `Pool`:
`parseTx` is `Tx::read` (`None` = undecodable bytes);
`verifyTx` is the consensus engine's `verify_transaction` with the DPC
parameters and the storage read folded in (it may error, and the source
propagates that error with `?`);
`insert` is the pending-transaction pool's `insert` with the storage read
folded in — `Ok (none, _)` means duplicate (no-op), `Ok (some txid, p)` means
newly inserted yielding pool state `p`, and `Except.error` is a pool failure. -/
structure TxEnv (Pool : Type) where
  localAddress : Addr
  parseTx : Bytes → Option Tx
  verifyTx : Tx → Except Nat Bool
  insert : Pool → Entry → Except Nat (Option Nat × Pool)

/-- `received_transaction`: parse, verify, coinbase-check, pool-insert,
conditionally relay.  Returns the pool state visible after the call, the
broadcasts issued, and the error returned to the caller (`none` = `Ok(())`).
An insert `Except.error` carries no pool state, so the pre-call pool is
reported in that branch. -/
def received_transaction {Pool : Type} (env : TxEnv Pool) (source : Addr)
    (txBytes : Bytes) (connected_peers : List Addr) (pool : Pool) :
    Pool × List Request × Option NetworkError :=
  match env.parseTx txBytes with
  | none => (pool, [], none)
  | some tx =>
    match env.verifyTx tx with
    | .error e => (pool, [], some (.consensus e))
    | .ok false => (pool, [], none)
    | .ok true =>
      if tx.value_balance < 0 then (pool, [], none)
      else
        match env.insert pool ⟨txBytes.length, tx⟩ with
        | .error _ => (pool, [], none)
        | .ok (none, pool') => (pool', [], none)
        | .ok (some _, pool') =>
          (pool',
            propagate_transaction env.localAddress txBytes source connected_peers,
            none)

/-- `received_memory_pool`: for each serialized transaction in the batch,
parse it (`Tx::read(...)?` — a parse failure aborts the whole handler with an
error) and insert it into the pool; the insert result is only pattern-matched
for logging (`if let Ok(Some(txid))`), so a duplicate or a pool failure is
swallowed and iteration continues.  `verifyTx` is never consulted.  Returns
the pool state at return time and the error returned to the caller. -/
def received_memory_pool {Pool : Type} (env : TxEnv Pool) :
    List Bytes → Pool → Pool × Option NetworkError
  | [], pool => (pool, none)
  | txBytes :: rest, pool =>
    match env.parseTx txBytes with
    | none => (pool, some .txParse)
    | some tx =>
      match env.insert pool ⟨txBytes.length, tx⟩ with
      | .ok (_, pool') => received_memory_pool env rest pool'
      | .error _ => received_memory_pool env rest pool

/-- A decoded block (`BlockStruct`): only its header hash is inspected by
this component. -/
structure Block where
  hash : Hash
  deriving DecidableEq, Repr

/-- The chain storage as seen by `received_block`: the set of block header
hashes present, modelled as a list. -/
abbrev BlockStorage := List Hash

/-- `storage.block_hash_exists`. -/
def block_hash_exists (st : BlockStorage) (h : Hash) : Bool :=
  st.contains h

/-- The collaborators consulted by `received_block`:
`deserialize` is `BlockStruct::deserialize` (`None` = undecodable, a hard
error); `validate` is the success predicate of the consensus engine's
`receive_block` on a given storage state. -/
structure BlockEnv where
  localAddress : Addr
  deserialize : Bytes → Option Block
  validate : Block → BlockStorage → Bool

/-- Modelled from the spec: the consensus engine's `receive_block`
(`snarkos-consensus`, outside this source tree) "performs full validation
and, on success, persists the block and updates the pool".  Returns whether
validation succeeded together with the storage state afterwards; a block
failing validation is not persisted.  The pool update it also performs is
irrelevant to the properties checked here and is not modelled. -/
def receive_block (env : BlockEnv) (st : BlockStorage) (b : Block) :
    Bool × BlockStorage :=
  if env.validate b st then (true, b.hash :: st) else (false, st)

/-- `received_block`: deserialize (hard error on failure), dedup on the
header hash, otherwise validate via `receive_block` and, when a peer
directory was supplied and the block was new, relay it.  Returns the storage
state afterwards, the number of validation attempts made (0 or 1), the
broadcasts issued, and the error returned to the caller. -/
def received_block (env : BlockEnv) (remote_address : Addr) (blockData : Bytes)
    (connected_peers : Option (List Addr)) (st : BlockStorage) :
    BlockStorage × Nat × List Request × Option NetworkError :=
  match env.deserialize blockData with
  | none => (st, 0, [], some .blockParse)
  | some block_struct =>
    if block_hash_exists st block_struct.hash then (st, 0, [], none)
    else
      let res := receive_block env st block_struct
      let sends :=
        match connected_peers with
        | some peers =>
          if res.1 then
            propagate_block env.localAddress blockData remote_address peers
          else []
        | none => []
      (res.2, 1, sends, none)

/-- The storage interface consulted by `received_get_sync`:
`get_latest_shared_hash` (may error; the source propagates with `?`),
`get_current_block_height`, `get_block_number` (its failure is recovered by
an `if let`), and `get_block_hash` (may error inside the reply loop; the
source propagates with `?`). -/
structure SyncStorage where
  get_latest_shared_hash : List Hash → Except Nat Hash
  get_current_block_height : Nat
  get_block_number : Hash → Except Nat Nat
  get_block_hash : Nat → Except Nat Hash

/-- The reply-collection loop of `received_get_sync`:
`for block_num in height + 1..=max_height { push(get_block_hash(block_num)?) }`,
phrased over the start height and the number of iterations. -/
def collectHashes (st : SyncStorage) (start : Nat) : Nat → Except Nat (List Hash)
  | 0 => .ok []
  | n + 1 =>
    match st.get_block_hash start with
    | .error e => .error e
    | .ok h =>
      match collectHashes st (start + 1) n with
      | .error e => .error e
      | .ok rest => .ok (h :: rest)

/-- `received_get_sync`: resolve the latest shared hash (propagating its
failure), resolve it to a height (recovering failure as an empty reply),
build the capped reply range, and broadcast exactly one `Sync` message —
unless a propagated storage error aborted the handler first.  Returns the
broadcasts issued and the error returned to the caller. -/
def received_get_sync (st : SyncStorage) (remote_address : Addr)
    (block_locator_hashes : List Hash) : List Request × Option NetworkError :=
  match st.get_latest_shared_hash block_locator_hashes with
  | .error e => ([], some (.storage e))
  | .ok latest_shared_hash =>
    let current_height := st.get_current_block_height
    match st.get_block_number latest_shared_hash with
    | .error _ => ([Request.sync remote_address []], none)
    | .ok height =>
      if height < current_height then
        let max_height :=
          if height + 4000 < current_height then height + 4000
          else current_height
        match collectHashes st (height + 1) (max_height - height) with
        | .error e => ([], some (.storage e))
        | .ok block_hashes => ([Request.sync remote_address block_hashes], none)
      else ([Request.sync remote_address []], none)

/-- Claim C3: for every peer directory, originator address and payload,
`propagate_block` sends a `Block` message to no address equal to the miner or
the local address, and sends to every other address in the directory exactly
once; `propagate_transaction` applies the identical exclusion policy with a
`Transaction` message. -/
theorem propagate_excludes_originator_and_self (localAddress : Addr)
    (bytes : Bytes) (miner : Addr) (peers : List Addr) (hnd : peers.Nodup) :
    (∀ a b, Request.block a b ∈ propagate_block localAddress bytes miner peers →
      a ≠ miner ∧ a ≠ localAddress)
    ∧ (∀ a, a ∈ peers → a ≠ miner → a ≠ localAddress →
      (propagate_block localAddress bytes miner peers).count
        (Request.block a bytes) = 1)
    ∧ (∀ a b, Request.transaction a b ∈
        propagate_transaction localAddress bytes miner peers →
      a ≠ miner ∧ a ≠ localAddress)
    ∧ (∀ a, a ∈ peers → a ≠ miner → a ≠ localAddress →
      (propagate_transaction localAddress bytes miner peers).count
        (Request.transaction a bytes) = 1) := by
  refine ⟨fun a b h => ⟨(propagate_block_mem h).1, (propagate_block_mem h).2.1⟩,
    fun a ha hm hl => ?_,
    fun a b h => ⟨(propagate_transaction_mem h).1,
      (propagate_transaction_mem h).2.1⟩,
    fun a ha hm hl => ?_⟩
  · unfold propagate_block
    rw [count_filter_map_request (g := fun x => Request.block x bytes)
      (fun x y h => by injection h) _ a peers hnd]
    simp [ha, hm, hl]
  · unfold propagate_transaction
    rw [count_filter_map_request (g := fun x => Request.transaction x bytes)
      (fun x y h => by injection h) _ a peers hnd]
    simp [ha, hm, hl]

/-- Claim C3 witness: with local address 0, miner 1 and peers `[0, 1, 2, 3]`,
peer 2 receives the block exactly once. -/
theorem propagate_excludes_originator_and_self_witness :
    ([0, 1, 2, 3] : List Addr).Nodup
    ∧ (propagate_block 0 [7] 1 [0, 1, 2, 3]).count (Request.block 2 [7]) = 1 :=
  ⟨by decide,
    (propagate_excludes_originator_and_self 0 [7] 1 [0, 1, 2, 3]
      (by decide)).2.1 2 (by decide) (by decide) (by decide)⟩

/-- A transaction-ingestion environment whose parser yields a transaction
with value balance 0 that passes verification, over a list-of-transactions
pool whose insert always reports a fresh insertion. -/
def envAccept : TxEnv (List Tx) where
  localAddress := 0
  parseTx := fun _ => some ⟨1, 0⟩
  verifyTx := fun _ => .ok true
  insert := fun pool e => .ok (some e.transaction.txid, e.transaction :: pool)

/-- Claim C1 counterexample: a transaction with value balance 0
(non-negative) that parses and passes `verify_transaction` IS inserted into
the pool and IS relayed — the source rejects transactions whose value
balance `is_negative`, not non-negative ones — so the claim as stated is
false. -/
theorem received_transaction_nonneg_accepted_cex :
    received_transaction envAccept 9 [5] [3] ([] : List Tx)
      = ([⟨1, 0⟩], [Request.transaction 3 [5]], none) := by decide

/-- Claim C1 (amended): for every transaction whose value balance is
negative (coinbase-shaped), `received_transaction` never results in a pool
insertion or a relay send, and the handler returns success whenever
`verify_transaction` does not itself error (a `verify_transaction` error is
propagated to the caller before the coinbase check). -/
theorem received_transaction_rejects_coinbase {Pool : Type} (env : TxEnv Pool)
    (source : Addr) (txBytes : Bytes) (peers : List Addr) (pool : Pool)
    (tx : Tx) (hparse : env.parseTx txBytes = some tx)
    (hneg : tx.value_balance < 0) :
    (received_transaction env source txBytes peers pool).1 = pool
    ∧ (received_transaction env source txBytes peers pool).2.1 = []
    ∧ ((∀ e, env.verifyTx tx ≠ .error e) →
      received_transaction env source txBytes peers pool = (pool, [], none)) := by
  cases hv : env.verifyTx tx with
  | error e =>
    refine ⟨?_, ?_, fun hok => absurd rfl (hok e)⟩ <;>
      simp [received_transaction, hparse, hv]
  | ok b =>
    cases b with
    | false =>
      refine ⟨?_, ?_, fun _ => ?_⟩ <;> simp [received_transaction, hparse, hv]
    | true =>
      refine ⟨?_, ?_, fun _ => ?_⟩ <;>
        simp [received_transaction, hparse, hv, hneg]

/-- A transaction-ingestion environment whose parser yields a transaction
with value balance -5 that passes verification. -/
def envCoinbase : TxEnv (List Tx) where
  localAddress := 0
  parseTx := fun _ => some ⟨2, -5⟩
  verifyTx := fun _ => .ok true
  insert := fun pool e => .ok (some e.transaction.txid, e.transaction :: pool)

/-- Claim C1 witness: a parsed transaction with value balance -5 is silently
dropped — no insertion, no sends, success returned. -/
theorem received_transaction_rejects_coinbase_witness :
    received_transaction envCoinbase 9 [5] [3] ([] : List Tx)
      = ([], [], none) :=
  (received_transaction_rejects_coinbase envCoinbase 9 [5] [3] [] ⟨2, -5⟩
    rfl (by decide)).2.2 (fun e h => nomatch h)

/-- Claim C8: for every byte sequence that does not parse as a transaction,
`received_transaction` returns success, leaves the pool unchanged, and
issues no relay send. -/
theorem received_transaction_unparseable_noop {Pool : Type} (env : TxEnv Pool)
    (source : Addr) (txBytes : Bytes) (peers : List Addr) (pool : Pool)
    (hparse : env.parseTx txBytes = none) :
    received_transaction env source txBytes peers pool = (pool, [], none) := by
  unfold received_transaction
  rw [hparse]

/-- A transaction-ingestion environment whose parser rejects every byte
sequence. -/
def envNoParse : TxEnv (List Tx) where
  localAddress := 0
  parseTx := fun _ => none
  verifyTx := fun _ => .ok true
  insert := fun pool e => .ok (some e.transaction.txid, e.transaction :: pool)

/-- Claim C8 witness: unparseable bytes produce success, an unchanged pool
and no sends. -/
theorem received_transaction_unparseable_noop_witness :
    received_transaction envNoParse 9 [5] [3] ([⟨4, 2⟩] : List Tx)
      = ([⟨4, 2⟩], [], none) :=
  received_transaction_unparseable_noop envNoParse 9 [5] [3] [⟨4, 2⟩] rfl

/-- Claim C10: if the pool's insert operation returns an error (rather than
reporting a duplicate), `received_transaction` swallows it: it returns
success to the caller and performs no relay, exactly as in the duplicate
case. -/
theorem received_transaction_insert_error_swallowed {Pool : Type}
    (env : TxEnv Pool) (source : Addr) (txBytes : Bytes) (peers : List Addr)
    (pool : Pool) (tx : Tx) (e : Nat)
    (hparse : env.parseTx txBytes = some tx)
    (hverify : env.verifyTx tx = .ok true)
    (hnneg : ¬ tx.value_balance < 0)
    (hins : env.insert pool ⟨txBytes.length, tx⟩ = .error e) :
    (received_transaction env source txBytes peers pool).2 = ([], none) := by
  simp [received_transaction, hparse, hverify, hnneg, hins]

/-- A transaction-ingestion environment whose pool insert always fails. -/
def envInsertFail : TxEnv (List Tx) where
  localAddress := 0
  parseTx := fun _ => some ⟨1, 0⟩
  verifyTx := fun _ => .ok true
  insert := fun _ _ => .error 7

/-- Claim C10 witness: a failing pool insert still yields success and no
sends. -/
theorem received_transaction_insert_error_swallowed_witness :
    (received_transaction envInsertFail 9 [5] [3] ([] : List Tx)).2
      = ([], none) :=
  received_transaction_insert_error_swallowed envInsertFail 9 [5] [3] []
    ⟨1, 0⟩ 7 rfl rfl (by decide) rfl

/-- The effect of one iteration of the `received_memory_pool` loop on the
pool state, for an entry whose parse succeeds (a failing insert leaves the
pool as is, mirroring the swallowed `if let Ok(..)`). -/
def pool_after_entry {Pool : Type} (env : TxEnv Pool) (pool : Pool)
    (txBytes : Bytes) : Pool :=
  match env.parseTx txBytes with
  | none => pool
  | some tx =>
    match env.insert pool ⟨txBytes.length, tx⟩ with
    | .ok (_, pool') => pool'
    | .error _ => pool

theorem received_memory_pool_cons_parse {Pool : Type} (env : TxEnv Pool)
    (txBytes : Bytes) (rest : List Bytes) (pool : Pool)
    (h : (env.parseTx txBytes).isSome) :
    received_memory_pool env (txBytes :: rest) pool
      = received_memory_pool env rest (pool_after_entry env pool txBytes) := by
  obtain ⟨tx, htx⟩ := Option.isSome_iff_exists.mp h
  simp only [received_memory_pool, pool_after_entry, htx]
  cases env.insert pool ⟨txBytes.length, tx⟩ with
  | ok p => rfl
  | error e => rfl

theorem received_memory_pool_ok_foldl {Pool : Type} (env : TxEnv Pool)
    (l : List Bytes) (pool : Pool)
    (h : ∀ b ∈ l, (env.parseTx b).isSome) :
    received_memory_pool env l pool
      = (l.foldl (pool_after_entry env) pool, none) := by
  induction l generalizing pool with
  | nil => rfl
  | cons b t ih =>
    rw [received_memory_pool_cons_parse env b t pool (h b (by simp)),
      List.foldl_cons]
    exact ih _ (fun x hx => h x (by simp [hx]))

theorem received_memory_pool_abort_foldl {Pool : Type} (env : TxEnv Pool)
    (l1 l2 : List Bytes) (bad : Bytes) (pool : Pool)
    (h1 : ∀ b ∈ l1, (env.parseTx b).isSome) (h2 : env.parseTx bad = none) :
    received_memory_pool env (l1 ++ bad :: l2) pool
      = (l1.foldl (pool_after_entry env) pool, some .txParse) := by
  induction l1 generalizing pool with
  | nil =>
    simp only [List.nil_append, List.foldl_nil, received_memory_pool, h2]
  | cons b t ih =>
    rw [List.cons_append,
      received_memory_pool_cons_parse env b _ pool (h1 b (by simp)),
      List.foldl_cons]
    exact ih _ (fun x hx => h1 x (by simp [hx]))

/-- Claim C7: `received_memory_pool` processes batch entries in order: a
parse failure at any entry is a hard error and the entries after it are
never processed (the result does not depend on them), while a batch whose
entries all parse succeeds with every entry handed to the pool's insert in
order — the handler never consults `verifyTx` (its definition takes the
verifier from the same environment as `received_transaction` but, like the
source, never applies it). -/
theorem received_memory_pool_order {Pool : Type} (env : TxEnv Pool)
    (l1 l2 l2' l : List Bytes) (bad : Bytes) (pool : Pool) :
    ((∀ b ∈ l1, (env.parseTx b).isSome) → env.parseTx bad = none →
      received_memory_pool env (l1 ++ bad :: l2) pool
        = (l1.foldl (pool_after_entry env) pool, some .txParse)
      ∧ received_memory_pool env (l1 ++ bad :: l2) pool
        = received_memory_pool env (l1 ++ bad :: l2') pool)
    ∧ ((∀ b ∈ l, (env.parseTx b).isSome) →
      received_memory_pool env l pool
        = (l.foldl (pool_after_entry env) pool, none)) := by
  refine ⟨fun h1 h2 => ⟨received_memory_pool_abort_foldl env l1 l2 bad pool h1 h2, ?_⟩,
    fun h => received_memory_pool_ok_foldl env l pool h⟩
  rw [received_memory_pool_abort_foldl env l1 l2 bad pool h1 h2,
    received_memory_pool_abort_foldl env l1 l2' bad pool h1 h2]

/-- A transaction-ingestion environment whose parser rejects empty byte
sequences and otherwise reads the first byte as the transaction id. -/
def envBatch : TxEnv (List Tx) where
  localAddress := 0
  parseTx := fun b => match b with
    | [] => none
    | x :: _ => some ⟨x, 0⟩
  verifyTx := fun _ => .ok false
  insert := fun pool e => .ok (some e.transaction.txid, e.transaction :: pool)

/-- Claim C7 witness: in the batch `[[1], [], [2]]` the empty entry aborts
with a hard error after `[1]` was handed to the pool, independently of the
trailing entries; and the all-parsing batch `[[1], [2]]` succeeds with both
entries inserted (the environment's verifier rejects everything, yet the
entries are still admitted). -/
theorem received_memory_pool_order_witness :
    (received_memory_pool envBatch [[1], [], [2]] ([] : List Tx)
        = ([⟨1, 0⟩], some .txParse)
      ∧ received_memory_pool envBatch [[1], [], [2]] ([] : List Tx)
        = received_memory_pool envBatch [[1], [], [3], [4]] ([] : List Tx))
    ∧ received_memory_pool envBatch [[1], [2]] ([] : List Tx)
      = ([⟨2, 0⟩, ⟨1, 0⟩], none) := by
  have h := received_memory_pool_order envBatch [[1]] [[2]] [[3], [4]]
    [[1], [2]] [] ([] : List Tx)
  exact ⟨h.1 (by decide) rfl, h.2 (by decide)⟩

/-- Modelled from the spec: the pending-transaction pool's `insert`
(`snarkos-consensus` memory pool, outside this source tree) —
"insert(storage, entry) → Option<TxId> | Error (None/absent = duplicate,
no-op)".  The pool is modelled as the list of admitted transactions: a
duplicate is reported as `none` and leaves the pool unchanged, a new
transaction is prepended and its id reported; the spec names no condition
under which the `Error` case occurs, so this model never produces it. -/
def memory_pool_insert (pool : List Tx) (entry : Entry) :
    Except Nat (Option Nat × List Tx) :=
  if entry.transaction ∈ pool then .ok (none, pool)
  else .ok (some entry.transaction.txid, entry.transaction :: pool)

/-- A transaction-ingestion environment over the spec-modelled pool. -/
def mkTxEnv (localAddress : Addr) (parseTx : Bytes → Option Tx)
    (verifyTx : Tx → Except Nat Bool) : TxEnv (List Tx) where
  localAddress := localAddress
  parseTx := parseTx
  verifyTx := verifyTx
  insert := memory_pool_insert

theorem pool_after_entry_mem_mono (localAddress : Addr)
    (parseTx : Bytes → Option Tx) (verifyTx : Tx → Except Nat Bool)
    (pool : List Tx) (b : Bytes) (tx : Tx) (h : tx ∈ pool) :
    tx ∈ pool_after_entry (mkTxEnv localAddress parseTx verifyTx) pool b := by
  simp only [pool_after_entry, mkTxEnv, memory_pool_insert]
  cases hp : parseTx b with
  | none => exact h
  | some tx' =>
    by_cases hd : tx' ∈ pool <;> simp [hd, h]

theorem pool_after_entry_mem_self (localAddress : Addr)
    (parseTx : Bytes → Option Tx) (verifyTx : Tx → Except Nat Bool)
    (pool : List Tx) (b : Bytes) (tx : Tx) (h : parseTx b = some tx) :
    tx ∈ pool_after_entry (mkTxEnv localAddress parseTx verifyTx) pool b := by
  simp only [pool_after_entry, mkTxEnv, memory_pool_insert]
  rw [h]
  by_cases hd : tx ∈ pool <;> simp [hd]

theorem foldl_pool_after_entry_mem (localAddress : Addr)
    (parseTx : Bytes → Option Tx) (verifyTx : Tx → Except Nat Bool)
    (l : List Bytes) (pool : List Tx) (tx : Tx) :
    (tx ∈ pool ∨ ∃ b ∈ l, parseTx b = some tx) →
    tx ∈ l.foldl (pool_after_entry (mkTxEnv localAddress parseTx verifyTx))
      pool := by
  induction l generalizing pool with
  | nil =>
    intro h
    rcases h with h | ⟨b, hb, _⟩
    · exact h
    · simp at hb
  | cons c t ih =>
    rintro (h | ⟨b, hb, hparse⟩)
    · exact ih _ (Or.inl (pool_after_entry_mem_mono _ _ _ _ _ _ h))
    · rcases List.mem_cons.mp hb with hbc | hbt
      · subst hbc
        exact ih _ (Or.inl (pool_after_entry_mem_self _ _ _ _ _ _ hparse))
      · exact ih _ (Or.inr ⟨b, hbt, hparse⟩)

/-- Claim C9: `received_memory_pool` is not atomic on error — when it aborts
with a parse error, every earlier entry that parsed successfully is already
in the pending-transaction pool (the spec-modelled pool) and is still there
in the state visible when the error is returned to the caller. -/
theorem received_memory_pool_not_atomic (localAddress : Addr)
    (parseTx : Bytes → Option Tx) (verifyTx : Tx → Except Nat Bool)
    (l1 l2 : List Bytes) (bad : Bytes) (pool : List Tx)
    (h1 : ∀ b ∈ l1, (parseTx b).isSome) (h2 : parseTx bad = none) :
    (received_memory_pool (mkTxEnv localAddress parseTx verifyTx)
      (l1 ++ bad :: l2) pool).2 = some .txParse
    ∧ ∀ b ∈ l1, ∀ tx, parseTx b = some tx →
      tx ∈ (received_memory_pool (mkTxEnv localAddress parseTx verifyTx)
        (l1 ++ bad :: l2) pool).1 := by
  rw [received_memory_pool_abort_foldl _ l1 l2 bad pool h1 h2]
  exact ⟨rfl, fun b hb tx htx =>
    foldl_pool_after_entry_mem localAddress parseTx verifyTx l1 pool tx
      (Or.inr ⟨b, hb, htx⟩)⟩

/-- Claim C9 witness: aborting on the empty entry of `[[1], [2], [], [3]]`
leaves the transactions parsed from `[1]` and `[2]` in the pool state
returned alongside the error. -/
theorem received_memory_pool_not_atomic_witness :
    (received_memory_pool (mkTxEnv 0 envBatch.parseTx envBatch.verifyTx)
      [[1], [2], [], [3]] ([] : List Tx)).2 = some .txParse
    ∧ (⟨1, 0⟩ : Tx) ∈
      (received_memory_pool (mkTxEnv 0 envBatch.parseTx envBatch.verifyTx)
        [[1], [2], [], [3]] ([] : List Tx)).1
    ∧ (⟨2, 0⟩ : Tx) ∈
      (received_memory_pool (mkTxEnv 0 envBatch.parseTx envBatch.verifyTx)
        [[1], [2], [], [3]] ([] : List Tx)).1 := by
  have h := received_memory_pool_not_atomic 0 envBatch.parseTx
    envBatch.verifyTx [[1], [2]] [[3]] [] [] (by decide) rfl
  exact ⟨h.1, h.2 [1] (by decide) ⟨1, 0⟩ rfl, h.2 [2] (by decide) ⟨2, 0⟩ rfl⟩

/-- A block-ingestion environment that decodes the first byte as the header
hash and whose consensus engine rejects every block. -/
def envRejectAll : BlockEnv where
  localAddress := 0
  deserialize := fun b => some ⟨b.headD 0⟩
  validate := fun _ _ => false

/-- Claim C4 counterexample: with a consensus engine that rejects the block,
calling `received_block` twice with the same envelope and the same peer
directory performs TWO validation attempts, not one — a block failing
validation is not persisted, so the second call's existence check misses and
validation is re-attempted.  This falsifies the claim's "exactly one
validation attempt". -/
theorem received_block_twice_cex :
    (received_block envRejectAll 1 [9] (some [2, 3]) []).2.1
      + (received_block envRejectAll 1 [9] (some [2, 3])
          (received_block envRejectAll 1 [9] (some [2, 3]) []).1).2.1 = 2 := by
  decide

/-- Claim C4 (amended): `received_block` is idempotent at the admission
boundary — if the decoded block's header hash already exists in storage the
call is a no-op returning success (no validation, no relay); and, provided
the first call's validation succeeds (persisting the block), calling
`received_block` twice with the same envelope and the same peer directory
results in exactly one validation attempt and at most one relay: the second
call performs no validation and no sends. -/
theorem received_block_idempotent (env : BlockEnv) (remote : Addr)
    (blockData : Bytes) (peers : Option (List Addr)) (st : BlockStorage)
    (b : Block) (hparse : env.deserialize blockData = some b) :
    (block_hash_exists st b.hash = true →
      received_block env remote blockData peers st = (st, 0, [], none))
    ∧ (block_hash_exists st b.hash = false → env.validate b st = true →
      (received_block env remote blockData peers st).2.1 = 1
      ∧ received_block env remote blockData peers
          (received_block env remote blockData peers st).1
        = ((received_block env remote blockData peers st).1, 0, [], none)) := by
  constructor
  · intro hex
    simp [received_block, hparse, hex]
  · intro hex hval
    have hst1 : (received_block env remote blockData peers st).1
        = b.hash :: st := by
      simp [received_block, hparse, hex, receive_block, hval]
    constructor
    · simp [received_block, hparse, hex]
    · rw [hst1]
      simp [received_block, hparse, block_hash_exists]

/-- A block-ingestion environment that decodes the first byte as the header
hash and whose consensus engine accepts every block. -/
def envAcceptAll : BlockEnv where
  localAddress := 0
  deserialize := fun b => some ⟨b.headD 0⟩
  validate := fun _ _ => true

/-- Claim C4 witness: on an accepting consensus engine, a first call on
empty storage performs one validation, and the repeated call is a no-op. -/
theorem received_block_idempotent_witness :
    (received_block envAcceptAll 1 [5] (some [2, 3]) []).2.1 = 1
    ∧ received_block envAcceptAll 1 [5] (some [2, 3])
        (received_block envAcceptAll 1 [5] (some [2, 3]) []).1
      = ((received_block envAcceptAll 1 [5] (some [2, 3]) []).1,
          0, [], none) :=
  (received_block_idempotent envAcceptAll 1 [5] (some [2, 3]) [] ⟨5⟩ rfl).2
    rfl rfl

/-- Claim C6: for a block that decodes and is absent from storage,
`received_block` swallows consensus validation failure (it returns success
and performs no relay), relays the original bytes — excluding the immediate
sender — exactly when validation succeeded and a peer directory was
supplied, and with no peer directory performs no sends at all. -/
theorem received_block_validation_swallowed (env : BlockEnv) (remote : Addr)
    (blockData : Bytes) (peers : List Addr) (st : BlockStorage) (b : Block)
    (hparse : env.deserialize blockData = some b)
    (habs : block_hash_exists st b.hash = false) :
    received_block env remote blockData (some peers) st
      = ((receive_block env st b).2, 1,
          (if env.validate b st then
            propagate_block env.localAddress blockData remote peers
          else []), none)
    ∧ received_block env remote blockData none st
      = ((receive_block env st b).2, 1, [], none)
    ∧ (env.validate b st = false →
      (received_block env remote blockData (some peers) st).2.2.1 = [])
    ∧ ∀ a d, Request.block a d ∈
        (received_block env remote blockData (some peers) st).2.2.1 →
      a ≠ remote := by
  have hmain : received_block env remote blockData (some peers) st
      = ((receive_block env st b).2, 1,
          (if env.validate b st then
            propagate_block env.localAddress blockData remote peers
          else []), none) := by
    by_cases hval : env.validate b st
    · simp [received_block, hparse, habs, receive_block, hval]
    · simp [received_block, hparse, habs, receive_block, hval]
  refine ⟨hmain, by simp [received_block, hparse, habs], ?_, ?_⟩
  · intro hval
    rw [hmain]
    simp [hval]
  · intro a d hmem
    rw [hmain] at hmem
    by_cases hval : env.validate b st
    · rw [if_pos hval] at hmem
      exact (propagate_block_mem hmem).1
    · rw [if_neg hval] at hmem
      simp at hmem

/-- Claim C6 witness: an all-rejecting consensus engine yields success with
no relay, with or without a peer directory; instantiated at block bytes
`[5]` on empty storage. -/
theorem received_block_validation_swallowed_witness :
    received_block envRejectAll 1 [5] (some [2, 3]) [] = ([], 1, [], none)
    ∧ received_block envRejectAll 1 [5] none [] = ([], 1, [], none) :=
  ⟨(received_block_validation_swallowed envRejectAll 1 [5] [2, 3] [] ⟨5⟩
      rfl rfl).1,
    (received_block_validation_swallowed envRejectAll 1 [5] [2, 3] [] ⟨5⟩
      rfl rfl).2.1⟩

theorem collectHashes_ok (st : SyncStorage) (f : Nat → Hash)
    (hf : ∀ n, st.get_block_hash n = .ok (f n)) :
    ∀ (k start : Nat),
      collectHashes st start k = .ok ((List.range' start k).map f) := by
  intro k
  induction k with
  | zero => intro start; rfl
  | succ n ih =>
    intro start
    rw [List.range'_succ, List.map_cons]
    simp only [collectHashes, hf start, ih (start + 1)]

theorem received_get_sync_max_height (h c : Nat) :
    (if h + 4000 < c then h + 4000 else c) = min c (h + 4000) := by
  rcases Nat.lt_or_ge (h + 4000) c with hc | hc
  · rw [if_pos hc, Nat.min_eq_right (Nat.le_of_lt hc)]
  · rw [if_neg (Nat.not_lt.mpr hc), Nat.min_eq_left hc]

/-- Claim C2: when the shared hash resolves to a height `h` strictly below
the current tip, the `Sync` reply built by `received_get_sync` holds exactly
the block hashes at heights `h + 1` through `min tip (h + 4000)`, in
ascending height order; its length never exceeds 4000, and when the tip is
`h + 5000` it is exactly 4000, starting at `h + 1`. -/
theorem received_get_sync_reply_range (st : SyncStorage) (remote : Addr)
    (locators : List Hash) (shared : Hash) (h : Nat) (f : Nat → Hash)
    (hshared : st.get_latest_shared_hash locators = .ok shared)
    (hnum : st.get_block_number shared = .ok h)
    (hlt : h < st.get_current_block_height)
    (hf : ∀ n, st.get_block_hash n = .ok (f n)) :
    received_get_sync st remote locators
      = ([Request.sync remote
          ((List.range' (h + 1)
            (min st.get_current_block_height (h + 4000) - h)).map f)], none)
    ∧ ((List.range' (h + 1)
          (min st.get_current_block_height (h + 4000) - h)).map f).length
        = min st.get_current_block_height (h + 4000) - h
    ∧ min st.get_current_block_height (h + 4000) - h ≤ 4000
    ∧ (st.get_current_block_height = h + 5000 →
      min st.get_current_block_height (h + 4000) - h = 4000) := by
  refine ⟨?_, by simp, ?_, fun htip => ?_⟩
  · simp only [received_get_sync, hshared, hnum]
    rw [if_pos hlt, received_get_sync_max_height, collectHashes_ok st f hf]
  · have := Nat.min_le_right st.get_current_block_height (h + 4000)
    omega
  · rw [htip]
    have : min (h + 5000) (h + 4000) = h + 4000 :=
      Nat.min_eq_right (by omega)
    omega

/-- A sync-storage in which the shared hash 42 resolves to height 3, the tip
is height 5003, and the hash at height `n` is `10 * n`. -/
def stFarBehind : SyncStorage where
  get_latest_shared_hash := fun _ => .ok 42
  get_current_block_height := 5003
  get_block_number := fun hsh => if hsh = 42 then .ok 3 else .error 0
  get_block_hash := fun n => .ok (10 * n)

/-- Claim C2 witness: a requester 5000 blocks behind (shared height 3, tip
5003) receives exactly the 4000 hashes at heights 4 through 4003. -/
theorem received_get_sync_reply_range_witness :
    received_get_sync stFarBehind 7 [42]
      = ([Request.sync 7 ((List.range' 4 4000).map (fun n => 10 * n))], none) :=
  (received_get_sync_reply_range stFarBehind 7 [42] 42 3 (fun n => 10 * n)
    rfl rfl (by decide) (fun _ => rfl)).1

/-- A sync-storage whose latest-shared-hash lookup fails. -/
def stNoShared : SyncStorage where
  get_latest_shared_hash := fun _ => .error 5
  get_current_block_height := 10
  get_block_number := fun _ => .ok 0
  get_block_hash := fun n => .ok n

/-- Claim C5 counterexample: when `get_latest_shared_hash` fails, the
source's `?` aborts `received_get_sync` before any broadcast — zero `Sync`
replies are sent and the failure IS surfaced as an error — so the claim's
"always sends exactly one Sync reply ... never surfaced as an error" is
false. -/
theorem received_get_sync_no_reply_cex :
    received_get_sync stNoShared 7 [1, 2]
      = ([], some (NetworkError.storage 5)) := rfl

/-- Claim C5 (amended): provided the latest-shared-hash lookup succeeds and
every block-hash lookup succeeds, `received_get_sync` sends exactly one
`Sync` reply to the requester — even when the hash list is empty — and the
reply is empty whenever the shared height equals or exceeds the current tip
or the shared hash cannot be resolved to a height (a `get_block_number`
failure is recovered locally as an empty reply); a failing
latest-shared-hash lookup is instead propagated as an error with no reply
sent. -/
theorem received_get_sync_always_one_reply (st : SyncStorage) (remote : Addr)
    (locators : List Hash) (shared : Hash) (f : Nat → Hash)
    (hshared : st.get_latest_shared_hash locators = .ok shared)
    (hf : ∀ n, st.get_block_hash n = .ok (f n)) :
    ∃ l, received_get_sync st remote locators = ([Request.sync remote l], none)
      ∧ ((∀ h, st.get_block_number shared ≠ .ok h) → l = [])
      ∧ (∀ h, st.get_block_number shared = .ok h →
        st.get_current_block_height ≤ h → l = []) := by
  simp only [received_get_sync, hshared]
  cases hnum : st.get_block_number shared with
  | error e =>
    exact ⟨[], rfl, fun _ => rfl, fun h heq _ => nomatch heq⟩
  | ok h =>
    dsimp only
    by_cases hlt : h < st.get_current_block_height
    · rw [if_pos hlt, received_get_sync_max_height, collectHashes_ok st f hf]
      refine ⟨_, rfl, fun hno => absurd rfl (hno h), fun h' heq hle => ?_⟩
      cases heq
      omega
    · rw [if_neg hlt]
      exact ⟨[], rfl, fun hno => absurd rfl (hno h), fun _ _ _ => rfl⟩

/-- Claim C5 witness: on `stFarBehind` the handler broadcasts exactly one
message and returns success. -/
theorem received_get_sync_always_one_reply_witness :
    (received_get_sync stFarBehind 7 [42]).1.length = 1
    ∧ (received_get_sync stFarBehind 7 [42]).2 = none := by
  obtain ⟨l, hl, -, -⟩ := received_get_sync_always_one_reply stFarBehind 7
    [42] 42 (fun n => 10 * n) rfl (fun _ => rfl)
  rw [hl]
  exact ⟨rfl, rfl⟩

end SnarkOS
